import Mathlib

/-!
# s3bulk: a verification development of `tools/s3bulk/main.go`

The Go program walks a source directory, pushes every regular file it finds
into an unbuffered channel, and lets a pool of workers upload each file to an
object store under a key derived from the package metadata, moving the file
to a "done" directory afterwards.

Go strings are modelled as lists of characters.  Everything outside the
program text (the filesystem, the `hab` command, the JSON decoder, the S3
client) is a parameter: a record of functions over an abstract filesystem
state and an abstract store state.  Each embedded function returns the
events it performs, in order, next to its result.
-/

namespace S3Bulk

/-! ## Go strings and the library functions the program calls -/

/-- A Go string, as the list of its characters. -/
abbrev GoString := List Char

/-- An error value, represented by the text of `err.Error()`. -/
abbrev GoError := GoString

/-- Position of the first occurrence of `substr` in `s`, if there is one. -/
def firstIndex (substr : GoString) : GoString → Option Nat
  | [] => if substr = [] then some 0 else none
  | c :: cs =>
    if substr.isPrefixOf (c :: cs) then some 0
    else (firstIndex substr cs).map (· + 1)

/-- `strings.Index`: index of the first instance of `substr` in `s`, or -1. -/
def Index (s substr : GoString) : Int :=
  match firstIndex substr s with
  | some i => (i : Int)
  | none => -1

/-- `strings.Contains`: reports whether `substr` is within `s`. -/
def Contains (s substr : GoString) : Bool :=
  decide (Index s substr ≥ 0)

/-- Splits `s` around the first occurrence of the non-empty `old`:
the text before it and the text after it. -/
def cutFirst (old : GoString) : GoString → Option (GoString × GoString)
  | [] => none
  | c :: cs =>
    if old.isPrefixOf (c :: cs) then some ([], (c :: cs).drop old.length)
    else (cutFirst old cs).map (fun ba => (c :: ba.1, ba.2))

/-- Replaces the first `k` occurrences of the non-empty `old` by `new`. -/
def replaceFirst (old new : GoString) : Nat → GoString → GoString
  | 0, s => s
  | k + 1, s =>
    match cutFirst old s with
    | none => s
    | some (before, after) => before ++ new ++ replaceFirst old new k after

/-- Inserts `new` before each of the first `k` characters of `s` (and at the
end when `k` exceeds the length): what `strings.Replace` does for an empty
`old`. -/
def insertBefore (new : GoString) : Nat → GoString → GoString
  | 0, s => s
  | _ + 1, [] => new
  | k + 1, c :: cs => new ++ c :: insertBefore new k cs

/-- `strings.Replace`: a copy of `s` with the first `n` non-overlapping
instances of `old` replaced by `new`; all of them when `n < 0`. -/
def Replace (s old new : GoString) (n : Int) : GoString :=
  if old = new ∨ n = 0 then s
  else
    let k := if n < 0 then s.length + 1 else n.toNat
    if old = [] then insertBefore new k s else replaceFirst old new k s

/-- Pieces of `s` between the occurrences of the non-empty `sep`; `fuel`
bounds the number of cuts. -/
def splitPieces (sep : GoString) : Nat → GoString → List GoString
  | 0, s => [s]
  | fuel + 1, s =>
    match cutFirst sep s with
    | none => [s]
    | some (before, after) => before :: splitPieces sep fuel after

/-- `strings.Split`: slices `s` into all substrings separated by `sep`; an
empty `sep` splits after each character. -/
def Split (s sep : GoString) : List GoString :=
  if sep = [] then s.map (fun c => [c]) else splitPieces sep s.length s

/-- Drops the trailing slashes of a path. -/
def stripTrailingSlashes (p : GoString) : GoString :=
  (p.reverse.dropWhile (· == '/')).reverse

/-- The text after the last slash of `p`; `p` itself when it has none. -/
def lastElement : GoString → GoString
  | [] => []
  | c :: cs =>
    if '/' ∈ cs then lastElement cs
    else if c = '/' then cs else c :: cs

/-- `path.Base`: the last element of the path, trailing slashes removed
first; `"."` for an empty path and `"/"` for a path of slashes only. -/
def Base (p : GoString) : GoString :=
  if p = [] then ".".toList
  else
    let q := lastElement (stripTrailingSlashes p)
    if q = [] then "/".toList else q

/-- `strconv.Itoa`. -/
def Itoa (i : Int) : GoString := (toString i).toList

/-! ## The outside world

The program reaches the filesystem, the `hab` command, the JSON decoder and
the object store only through the calls below.  `F` is the state of the local
filesystem and `S` the state of the store.  Running `hab pkg info` and
opening a file read the filesystem; `PutObject` changes the store only;
`MkdirAll` and `Rename` change the filesystem. -/

/-- The Go struct `PkgInfo`. -/
structure PkgInfo where
  Origin : GoString
  Name : GoString
  Version : GoString
  Release : GoString
deriving DecidableEq, Repr

/-- The fields of `s3.PutObjectInput` the program sets. -/
structure PutObjectInput where
  Bucket : GoString
  Key : GoString
  Body : GoString
  ACL : GoString
deriving DecidableEq, Repr

/-- A file handle returned by a successful `os.Open`: what `Stat` reports
(`none` when `Stat` fails and hands back a nil `FileInfo`) and the bytes a
`Read` delivers. -/
structure OpenFile where
  stat : Option Nat
  content : GoString
deriving DecidableEq, Repr

/-- The external calls of the program. -/
structure Sys (F S : Type) where
  /-- `exec.Command("hab", "pkg", "info", "-j", path).Output()` -/
  habPkgInfo : F → GoString → Except GoError GoString
  /-- `json.Unmarshal(res, &pkgInfo)` -/
  jsonUnmarshal : GoString → Except GoError PkgInfo
  /-- `os.Open(path)` -/
  osOpen : F → GoString → Except GoError OpenFile
  /-- `worker.Svc.PutObject(params)`, the response already rendered by
  `awsutil.StringValue` -/
  putObject : S → PutObjectInput → S × Except GoError GoString
  /-- `os.MkdirAll(path, 0775)` -/
  mkdirAll : F → GoString → F × Option GoError
  /-- `os.Rename(oldpath, newpath)` -/
  rename : F → GoString → GoString → F × Option GoError

/-- The actions of the program that are visible outside a goroutine. -/
inductive Event
  /-- `file_channel <- v` -/
  | send (v : GoString)
  /-- `v := <-file_channel` -/
  | recv (v : GoString)
  /-- `fmt.Println(line)` -/
  | println (line : GoString)
  /-- the `hab pkg info -j path` command is run -/
  | exec (path : GoString)
  /-- `os.Open(path)` is called -/
  | osOpen (path : GoString)
  /-- `PutObject(input)` is called -/
  | putObject (input : PutObjectInput)
  /-- `os.MkdirAll(path, 0775)` is called -/
  | mkdirAll (path : GoString)
  /-- `os.Rename(oldpath, newpath)` is called -/
  | rename (oldpath newpath : GoString)
  /-- `wg.Done()` -/
  | wgDone
deriving DecidableEq, Repr

/-- The values sent into the channel, oldest first. -/
def pushed : List Event → List GoString
  | [] => []
  | .send v :: es => v :: pushed es
  | _ :: es => pushed es

/-- The values received from the channel, oldest first. -/
def received : List Event → List GoString
  | [] => []
  | .recv v :: es => v :: received es
  | _ :: es => received es

/-- The console lines printed, oldest first. -/
def console : List Event → List GoString
  | [] => []
  | .println l :: es => l :: console es
  | _ :: es => console es

/-- The paths `hab pkg info` was run on, oldest first: one per call of
`upload`, whose first action it is. -/
def inspected : List Event → List GoString
  | [] => []
  | .exec p :: es => p :: inspected es
  | _ :: es => inspected es

/-- Whether the event touches the source file or relocates it: opening the
file, the Put call, directory creation, rename. -/
def Event.isFileAction : Event → Bool
  | .osOpen _ => true
  | .putObject _ => true
  | .mkdirAll _ => true
  | .rename _ _ => true
  | _ => false

/-- Whether the event is a directory creation or a rename. -/
def Event.isRelocation : Event → Bool
  | .mkdirAll _ => true
  | .rename _ _ => true
  | _ => false

/-! ## `get_file_list` -/

/-- What the walk function finds at a path: `os.Open` fails, or the file
opens and `Stat` fails (nil `FileInfo`), or it opens and `Stat` tells
whether it is a directory. -/
inductive Probe
  | openFails
  | statFails
  | opened (isDir : Bool)
deriving DecidableEq, Repr

/-- One call `filepath.Walk` makes to the walk function: the path it passes
and what the function finds there. -/
structure Walked where
  path : GoString
  probe : Probe
deriving DecidableEq, Repr

/-- How a call of the walk function ends: it returns an error value (`nil`
is `none`), or it panics. -/
inductive CallbackResult
  | returned (err : Option GoError) (events : List Event)
  | panicked (events : List Event)
deriving DecidableEq, Repr

/-- The function literal passed to `filepath.Walk` (lines 50 to 68). -/
def walkFn (searchDir : GoString) (w : Walked) : CallbackResult :=
  match w.probe with
  | .openFails => .returned none [.osOpen w.path]
  | .statFails => .panicked [.osOpen w.path]
  | .opened isDir =>
    if isDir then .returned none [.osOpen w.path]
    else
      let path := Replace w.path searchDir [] 1
      .returned none [.osOpen w.path, .send path]

/-- `filepath.Walk` over the entries it would visit, in its order: the walk
stops at the first call that returns a non-nil error or panics. -/
def Walk (fn : Walked → CallbackResult) : List Walked → CallbackResult
  | [] => .returned none []
  | w :: ws =>
    match fn w with
    | .returned none ev =>
      match Walk fn ws with
      | .returned e ev2 => .returned e (ev ++ ev2)
      | .panicked ev2 => .panicked (ev ++ ev2)
    | .returned (some e) ev => .returned (some e) ev
    | .panicked ev => .panicked ev

/-- The loop `for i := 0; i < num_workers; i++ { file_channel <- "" }`, with
`k` iterations left. -/
def sendSentinels : Nat → List Event
  | 0 => []
  | k + 1 => .send [] :: sendSentinels k

/-- How a goroutine's function ends. -/
inductive Exit
  | returned
  | panicked
deriving DecidableEq, Repr

/-- A finished run of `get_file_list`. -/
structure EnumRun where
  exit : Exit
  events : List Event
deriving DecidableEq, Repr

/-- `get_file_list(searchDir, file_channel, num_workers, wg)`; the deferred
`wg.Done()` runs on return and while panicking. -/
def get_file_list (searchDir : GoString) (walk : List Walked) (num_workers : Int) : EnumRun :=
  match Walk (walkFn searchDir) walk with
  | .panicked ev => ⟨.panicked, ev ++ [.wgDone]⟩
  | .returned _ ev => ⟨.returned, ev ++ sendSentinels num_workers.toNat ++ [.wgDone]⟩

/-- Whether the entry opens and is not a directory: a regular file as far as
the walk function can tell. -/
def Walked.isFile (w : Walked) : Bool :=
  match w.probe with
  | .opened false => true
  | _ => false

/-! ## The upload worker -/

/-- The fields of the Go struct `Worker` that are plain data. -/
structure Worker where
  Acl : GoString
  Bucket : GoString
  Subfolder : GoString
  SourceDir : GoString
  DestDir : GoString
  Id : Int
deriving DecidableEq, Repr

/-- `worker.println(message)`. -/
def Worker.println (worker : Worker) (message : GoString) : Event :=
  .println ("Worker-".toList ++ Itoa worker.Id ++ ": ".toList ++ message)

/-- How `upload` ends: it returns `(response, err)`, or it panics. -/
inductive UploadResult
  | returned (response : GoString) (err : Option GoError)
  | panicked (err : GoError)
deriving DecidableEq, Repr

/-- A finished call of `upload`. -/
structure UploadOut (S : Type) where
  result : UploadResult
  store : S
  events : List Event

/-- The buffer after `buffer := make([]byte, size); f.Read(buffer)`. -/
def readBuffer (size : Nat) (content : GoString) : GoString :=
  content.take size ++ List.replicate (size - content.length) (Char.ofNat 0)

/-- `fmt.Sprintf("/%s/%s/%s/%s/x86_64/%s/%s", origin, name, version, release,
platform, last)`. -/
def sprintfKey (origin name version release platform last : GoString) : GoString :=
  "/".toList ++ origin ++ "/".toList ++ name ++ "/".toList ++ version ++ "/".toList
    ++ release ++ "/x86_64/".toList ++ platform ++ "/".toList ++ last

/-- `worker.upload(file)`. -/
def Worker.upload {F S : Type} (sys : Sys F S) (worker : Worker) (file : GoString)
    (fs : F) (store : S) : UploadOut S :=
  let ev1 := [Event.exec (worker.SourceDir ++ file)]
  match sys.habPkgInfo fs (worker.SourceDir ++ file) with
  | .error err => ⟨.panicked err, store, ev1⟩
  | .ok res =>
    match sys.jsonUnmarshal res with
    | .error err => ⟨.panicked err, store, ev1⟩
    | .ok pkgInfo =>
      let platform := if Contains file "windows".toList then "windows".toList else "linux".toList
      let filename := Split file "/".toList
      match filename.getLast? with
      | none => ⟨.panicked "index out of range".toList, store, ev1⟩
      | some last =>
        let destfile := sprintfKey pkgInfo.Origin pkgInfo.Name pkgInfo.Version
          pkgInfo.Release platform last
        let ev2 := ev1 ++ [worker.println ("uploading to ".toList ++ destfile),
          Event.osOpen (worker.SourceDir ++ file)]
        match sys.osOpen fs (worker.SourceDir ++ file) with
        | .error err => ⟨.returned "Couldn't open file".toList (some err), store, ev2⟩
        | .ok f =>
          match f.stat with
          | none => ⟨.panicked "nil pointer dereference".toList, store, ev2⟩
          | some size =>
            let params : PutObjectInput :=
              { Bucket := worker.Bucket, Key := destfile,
                Body := readBuffer size f.content, ACL := worker.Acl }
            let ev3 := ev2 ++ [Event.putObject params]
            match sys.putObject store params with
            | (store2, .error err) => ⟨.returned [] (some err), store2, ev3⟩
            | (store2, .ok resp) => ⟨.returned resp none, store2, ev3⟩

/-- The state after one pass through the body of the worker's loop. -/
structure IterOut (F S : Type) where
  exit : Exit
  fs : F
  store : S
  events : List Event

/-- The body of the loop of `doUploads` for a received `file` that is not
the empty string (lines 153 to 165). -/
def Worker.loopBody {F S : Type} (sys : Sys F S) (worker : Worker) (file : GoString)
    (fs : F) (store : S) : IterOut F S :=
  let ev1 := [worker.println ("File to upload: ".toList ++ file)]
  let up := worker.upload sys file fs store
  match up.result with
  | .panicked _ => ⟨.panicked, fs, up.store, ev1 ++ up.events⟩
  | .returned response (some err) =>
    ⟨.returned, fs, up.store, ev1 ++ up.events ++
      [worker.println ("error uploading".toList ++ file ++ ": ".toList ++ response
        ++ " ".toList ++ err)]⟩
  | .returned response none =>
    let filename := Base file
    let directory := Replace file ("/".toList ++ filename) [] 1
    let fs2 := (sys.mkdirAll fs (worker.DestDir ++ directory)).1
    let fs3 := (sys.rename fs2 (worker.SourceDir ++ file) (worker.DestDir ++ file)).1
    ⟨.returned, fs3, up.store, ev1 ++ up.events ++
      [worker.println response, Event.mkdirAll (worker.DestDir ++ directory),
        Event.rename (worker.SourceDir ++ file) (worker.DestDir ++ file)]⟩

/-- How a run of `doUploads` ends: it returns after a termination signal, it
panics, or it waits for ever on a channel nobody sends to any more. -/
inductive WorkerExit
  | finished
  | panicked
  | blocked
deriving DecidableEq, Repr

/-- A run of `doUploads`: how it ends, the values offered to the worker it
never received, the final filesystem and store, and its events. -/
structure WorkerRun (F S : Type) where
  exit : WorkerExit
  unread : List GoString
  fs : F
  store : S
  events : List Event

/-- The loop `for { file := <-worker.File_channel; ... }` of `doUploads`;
`incoming` lists the values the channel hands to this worker, in order. -/
def Worker.loop {F S : Type} (sys : Sys F S) (worker : Worker) :
    List GoString → F → S → WorkerRun F S
  | [], fs, store => ⟨.blocked, [], fs, store, []⟩
  | file :: rest, fs, store =>
    if file = [] then
      ⟨.finished, rest, fs, store, [Event.recv file]⟩
    else
      let it := worker.loopBody sys file fs store
      match it.exit with
      | .panicked => ⟨.panicked, rest, it.fs, it.store, Event.recv file :: it.events⟩
      | .returned =>
        let r := Worker.loop sys worker rest it.fs it.store
        ⟨r.exit, r.unread, r.fs, r.store, Event.recv file :: it.events ++ r.events⟩

/-- `worker.doUploads()`; the deferred `worker.Wg.Done()` runs on return and
while panicking. -/
def Worker.doUploads {F S : Type} (sys : Sys F S) (worker : Worker)
    (incoming : List GoString) (fs : F) (store : S) : WorkerRun F S :=
  let r := worker.loop sys incoming fs store
  let started := worker.println "doUploads() started".toList
  match r.exit with
  | .finished =>
    ⟨.finished, r.unread, r.fs, r.store,
      started :: r.events ++ [worker.println "doUploads() finished".toList, Event.wgDone]⟩
  | .panicked => ⟨.panicked, r.unread, r.fs, r.store, started :: r.events ++ [Event.wgDone]⟩
  | .blocked => ⟨.blocked, r.unread, r.fs, r.store, started :: r.events⟩

/-! ## The pipeline of `main`

`main` starts `get_file_list` and `num_workers` workers as goroutines over
one unbuffered channel and waits on a `sync.WaitGroup` set to
`num_workers + 1`.  The running program is a transition system: a send of
`get_file_list` and a receive of a waiting worker happen together as one
step; the body of a worker's loop is one step on the shared filesystem and
store; a panic in any goroutine ends the process. -/

/-- Where a worker goroutine stands: blocked in the receive, inside the loop
body with the file it received, or returned from `doUploads`. -/
inductive Phase
  | waiting
  | busy (file : GoString)
  | exited
deriving DecidableEq, Repr

/-- A worker goroutine: its `Worker` value, where it stands, and how many
termination signals it has received. -/
structure WorkerState where
  worker : Worker
  phase : Phase
  signals : Nat
deriving DecidableEq, Repr

/-- A state of the running program. -/
structure Pipeline (F S : Type) where
  /-- the values `get_file_list` has still to send, next first -/
  pending : List GoString
  /-- how `get_file_list` ends once it has sent them all -/
  enumExit : Exit
  /-- `get_file_list` has returned and called `wg.Done()` -/
  enumDone : Bool
  workers : List WorkerState
  fs : F
  store : S
  /-- the counter of the `WaitGroup` -/
  wg : Int
  /-- a goroutine has panicked; the process is gone -/
  crashed : Bool
  /-- `wg.Wait()` has returned in `main` -/
  waited : Bool

/-- The state `main` sets up (lines 208 to 232): the counter at
`num_workers + 1`, `get_file_list` about to send, and workers with ids 1 to
`num_workers` built from the flags, all about to receive. -/
def Pipeline.init {F S : Type} (flags : Worker) (walk : List Walked) (num_workers : Nat)
    (fs : F) (store : S) : Pipeline F S :=
  { pending := pushed (get_file_list flags.SourceDir walk (num_workers : Int)).events,
    enumExit := (get_file_list flags.SourceDir walk (num_workers : Int)).exit,
    enumDone := false,
    workers := (List.range num_workers).map
      (fun (i : Nat) =>
        { worker := { flags with Id := (i : Int) + 1 }, phase := .waiting, signals := 0 }),
    fs := fs,
    store := store,
    wg := (num_workers : Int) + 1,
    crashed := false,
    waited := false }

/-- Worker `i`, blocked in its receive, takes the value `get_file_list` is
sending: on the empty string it leaves the loop, returns and calls
`Wg.Done()`; on any other value it enters the loop body. -/
def Pipeline.handoff {F S : Type} (p : Pipeline F S) (i : Nat) : Option (Pipeline F S) :=
  if p.crashed = true ∨ p.waited = true then none
  else
    match p.pending, p.workers[i]? with
    | v :: rest, some w =>
      if w.phase = .waiting then
        if v = [] then
          some { p with
            pending := rest,
            workers := p.workers.set i { w with phase := .exited, signals := w.signals + 1 },
            wg := p.wg - 1 }
        else
          some { p with pending := rest, workers := p.workers.set i { w with phase := .busy v } }
      else none
    | _, _ => none

/-- Worker `i` runs the loop body on the file it holds and goes back to the
receive, or panics in `upload`. -/
def Pipeline.complete {F S : Type} (sys : Sys F S) (p : Pipeline F S) (i : Nat) :
    Option (Pipeline F S) :=
  if p.crashed = true ∨ p.waited = true then none
  else
    match p.workers[i]? with
    | some w =>
      match w.phase with
      | .busy v =>
        match (w.worker.loopBody sys v p.fs p.store).exit with
        | .returned =>
          some { p with
            workers := p.workers.set i { w with phase := .waiting },
            fs := (w.worker.loopBody sys v p.fs p.store).fs,
            store := (w.worker.loopBody sys v p.fs p.store).store }
        | .panicked =>
          some { p with
            crashed := true,
            fs := (w.worker.loopBody sys v p.fs p.store).fs,
            store := (w.worker.loopBody sys v p.fs p.store).store }
      | _ => none
    | none => none

/-- With nothing left to send, `get_file_list` ends: it returns and calls
`wg.Done()`, or it panics. -/
def Pipeline.enumReturn {F S : Type} (p : Pipeline F S) : Option (Pipeline F S) :=
  if p.crashed = true ∨ p.waited = true ∨ p.enumDone = true ∨ p.pending ≠ [] then none
  else
    match p.enumExit with
    | .returned => some { p with enumDone := true, wg := p.wg - 1 }
    | .panicked => some { p with crashed := true }

/-- With the counter at zero, `wg.Wait()` returns and `main` ends. -/
def Pipeline.waitReturn {F S : Type} (p : Pipeline F S) : Option (Pipeline F S) :=
  if p.crashed = false ∧ p.waited = false ∧ p.wg = 0 then some { p with waited := true }
  else none

/-- The states one step away: every way the goroutines can be scheduled
next.  A state with none is stuck (deadlock, crash) or ended. -/
def Pipeline.next {F S : Type} (sys : Sys F S) (p : Pipeline F S) : List (Pipeline F S) :=
  (List.range p.workers.length).filterMap p.handoff
    ++ (List.range p.workers.length).filterMap (p.complete sys)
    ++ p.enumReturn.toList
    ++ p.waitReturn.toList

/-- The end the coordinator is built for: every worker has received exactly
one termination signal and returned, `get_file_list` has sent everything and
returned, the counter is zero and `wg.Wait()` has returned. -/
def Pipeline.finished {F S : Type} (p : Pipeline F S) : Bool :=
  p.waited && !p.crashed && p.enumDone && p.pending.isEmpty && decide (p.wg = 0)
    && p.workers.all (fun w => decide (w.phase = .exited) && decide (w.signals = 1))

/-- Every run from `s` reaches a state satisfying `P`: `P` holds now, or
there is a next state and it holds for every run from each next state. -/
inductive Inevitable {σ : Type} (next : σ → List σ) (P : σ → Bool) : σ → Prop
  | now {s : σ} : P s = true → Inevitable next P s
  | later {s : σ} : next s ≠ [] → (∀ t ∈ next s, Inevitable next P t) → Inevitable next P s

/-- Some run from `s` of fewer than `n` steps gets stuck without ever
passing through a state satisfying `P`. -/
def avoidable {σ : Type} (next : σ → List σ) (P : σ → Bool) : Nat → σ → Bool
  | 0, _ => false
  | n + 1, s => !P s && ((next s).isEmpty || (next s).any (avoidable next P n))

/-- A filesystem given by the paths of its regular files. -/
abbrev DemoFS := List GoString

/-- A store given by the objects put into it, oldest first. -/
abbrev DemoStore := List PutObjectInput

/-- The calls that fail in a worked example: the paths `hab pkg info` fails
on, the paths that do not open, the paths whose `Stat` fails once open, the
keys the store rejects, the directories that cannot be created and the paths
that cannot be renamed. -/
structure Faults where
  inspect : List GoString := []
  noOpen : List GoString := []
  noStat : List GoString := []
  noPut : List GoString := []
  noMkdir : List GoString := []
  noRename : List GoString := []

/-- The metadata of the worked examples. -/
def demoInfo : PkgInfo :=
  { Origin := "core".toList, Name := "pkg".toList, Version := "1.2.0".toList,
    Release := "20230101000000".toList }

/-- The text the `hab` command prints in the worked examples; it stands for
the JSON object holding `demoInfo`. -/
def demoJSON : GoString := "core/pkg/1.2.0/20230101000000".toList

/-- The external calls of the worked examples. -/
def demoSys (faults : Faults) : Sys DemoFS DemoStore where
  habPkgInfo := fun _ path =>
    if path ∈ faults.inspect then .error "exit status 1".toList else .ok demoJSON
  jsonUnmarshal := fun res =>
    if res = demoJSON then .ok demoInfo else .error "invalid character".toList
  osOpen := fun fs path =>
    if path ∈ fs ∧ path ∉ faults.noOpen then
      .ok { stat := if path ∈ faults.noStat then none else some 3, content := "abc".toList }
    else .error "no such file or directory".toList
  putObject := fun store params =>
    if params.Key ∈ faults.noPut then (store, .error "AccessDenied".toList)
    else (store ++ [params], .ok "ETag".toList)
  mkdirAll := fun fs path =>
    if path ∈ faults.noMkdir then (fs, some "permission denied".toList) else (fs, none)
  rename := fun fs oldpath newpath =>
    if oldpath ∈ fs ∧ oldpath ∉ faults.noRename then
      (fs.map (fun p => if p = oldpath then newpath else p), none)
    else (fs, some "rename failed".toList)

/-- The worker of the worked examples: the default flags of `main`, id 1. -/
def demoWorker : Worker :=
  { Acl := "private".toList, Bucket := "my-s3-bucket".toList, Subfolder := [],
    SourceDir := "files/".toList, DestDir := "files-uploaded/".toList, Id := 1 }

/-- The values a worker is handed in the worked example of the loop: a file
that uploads, a file the store rejects, a file that is gone, the termination
signal, and a value that comes after it. -/
def demoIncoming : List GoString :=
  ["a/ok".toList, "a/rejected".toList, "a/gone".toList, [], "a/late".toList]

/-- The files present in the worked example of the loop. -/
def demoFiles : DemoFS := ["files/a/ok".toList, "files/a/rejected".toList]

/-- The faults of the worked example of the loop: the store rejects the key
of `a/rejected`. -/
def demoFaults : Faults :=
  { noPut := ["/core/pkg/1.2.0/20230101000000/x86_64/linux/rejected".toList] }

/-- The files of the worked example of the pipeline. -/
def demoTree : DemoFS := ["files/a/f1".toList, "files/a/f2".toList, "files/b/f3".toList]

/-! ## Facts about the string functions -/

theorem firstIndex_isSome_iff (sub s : GoString) :
    (firstIndex sub s).isSome = true ↔ sub <:+: s := by
  induction s with
  | nil =>
    by_cases h : sub = [] <;> simp [firstIndex, h]
  | cons c cs ih =>
    unfold firstIndex
    by_cases h : sub.isPrefixOf (c :: cs) = true
    · simp only [h, if_true, Option.isSome_some, true_iff]
      exact (List.isPrefixOf_iff_prefix.mp h).isInfix
    · have h2 : ¬ sub <+: c :: cs := fun hp => h (List.isPrefixOf_iff_prefix.mpr hp)
      simp only [h, Option.isSome_map', List.infix_cons_iff, h2, false_or]
      simpa using ih

theorem Contains_iff_substring (s sub : GoString) :
    Contains s sub = true ↔ sub <:+: s := by
  rw [← firstIndex_isSome_iff]
  unfold Contains Index
  cases h : firstIndex sub s with
  | none => simp
  | some i => simp

theorem cutFirst_append_self (old rest : GoString) (h : old ≠ []) :
    cutFirst old (old ++ rest) = some ([], rest) := by
  cases old with
  | nil => exact absurd rfl h
  | cons c cs =>
    have hp : (c :: cs).isPrefixOf (c :: (cs ++ rest)) = true :=
      List.isPrefixOf_iff_prefix.mpr (List.prefix_append (c :: cs) rest)
    show cutFirst (c :: cs) (c :: (cs ++ rest)) = _
    unfold cutFirst
    rw [if_pos hp]
    simp

theorem Replace_root (root rest : GoString) :
    Replace (root ++ rest) root [] 1 = rest := by
  by_cases h : root = []
  · subst h; simp [Replace]
  · simp [Replace, h, replaceFirst, cutFirst_append_self root rest h]

theorem cutFirst_single_none (c : Char) (s : GoString) (h : c ∉ s) :
    cutFirst [c] s = none := by
  induction s with
  | nil => rfl
  | cons x xs ih =>
    have hx : ¬ x = c := fun e => h (by simp [e])
    have hxs : c ∉ xs := fun e => h (by simp [e])
    have hx2 : ¬ c = x := fun e => hx e.symm
    simp [cutFirst, List.isPrefixOf, hx2, ih hxs]

theorem cutFirst_single_some (c : Char) (a t : GoString) (h : c ∉ a) :
    cutFirst [c] (a ++ c :: t) = some (a, t) := by
  induction a with
  | nil => simp [cutFirst, List.isPrefixOf]
  | cons x xs ih =>
    have hx : ¬ c = x := fun e => h (by simp [e])
    have hxs : c ∉ xs := fun e => h (by simp [e])
    simp [cutFirst, List.isPrefixOf, hx, ih hxs]

theorem splitPieces_getLast (c : Char) (b : GoString) (hb : c ∉ b) :
    ∀ (fuel : Nat) (s : GoString), s.length ≤ fuel →
      (s = b ∨ ∃ d, s = d ++ c :: b) →
      (splitPieces [c] fuel s).getLast? = some b := by
  intro fuel
  induction fuel with
  | zero =>
    intro s hlen hs
    have : s = [] := List.length_eq_zero.mp (Nat.le_zero.mp hlen)
    subst this
    rcases hs with hs | ⟨d, hd⟩
    · simp [splitPieces, ← hs]
    · simp at hd
  | succ k ih =>
    intro s hlen hs
    by_cases hc : c ∈ s
    · obtain ⟨a, t, hat, hca⟩ := List.eq_append_cons_of_mem hc
      subst hat
      have hcut := cutFirst_single_some c a t hca
      unfold splitPieces
      rw [hcut]
      simp only
      rw [List.getLast?_cons]
      suffices h : (splitPieces [c] k t).getLast? = some b by rw [h]; rfl
      apply ih
      · simp at hlen; omega
      · rcases hs with hs | ⟨d, hd⟩
        · exact absurd (hs ▸ hc) hb
        · rcases List.append_eq_append_iff.mp hd with ⟨a2, h1, h2⟩ | ⟨c2, h1, h2⟩
          · cases a2 with
            | nil => left; simpa using h2
            | cons y ys =>
              simp at h2
              right; exact ⟨ys, h2.2⟩
          · cases c2 with
            | nil => left; simp at h2; exact h2.symm
            | cons y ys =>
              simp at h2
              exfalso; apply hca; rw [h1, h2.1]; simp
    · have hsb : s = b := by
        rcases hs with hs | ⟨d, hd⟩
        · exact hs
        · exact absurd (by rw [hd]; simp) hc
      unfold splitPieces
      rw [cutFirst_single_none c s hc, hsb]
      simp

theorem Split_slash_getLast (p b : GoString) (hb : '/' ∉ b)
    (hp : p = b ∨ ∃ d, p = d ++ '/' :: b) :
    (Split p "/".toList).getLast? = some b := by
  have h : Split p "/".toList = splitPieces ['/'] p.length p := by
    simp [Split]
  rw [h]
  exact splitPieces_getLast '/' b hb p.length p (Nat.le_refl _) hp

/-! ## Facts about event lists -/

theorem pushed_append (a b : List Event) : pushed (a ++ b) = pushed a ++ pushed b := by
  induction a with
  | nil => rfl
  | cons e es ih => cases e <;> simp [pushed, ih]

theorem received_append (a b : List Event) :
    received (a ++ b) = received a ++ received b := by
  induction a with
  | nil => rfl
  | cons e es ih => cases e <;> simp [received, ih]

theorem console_append (a b : List Event) : console (a ++ b) = console a ++ console b := by
  induction a with
  | nil => rfl
  | cons e es ih => cases e <;> simp [console, ih]

theorem inspected_append (a b : List Event) :
    inspected (a ++ b) = inspected a ++ inspected b := by
  induction a with
  | nil => rfl
  | cons e es ih => cases e <;> simp [inspected, ih]

theorem pushed_sendSentinels (k : Nat) : pushed (sendSentinels k) = List.replicate k [] := by
  induction k with
  | zero => rfl
  | succ k ih => simp [sendSentinels, pushed, ih, List.replicate_succ]

/-! ## `get_file_list` -/

theorem Walk_walkFn (searchDir : GoString) (walk : List Walked)
    (h : ∀ w ∈ walk, w.probe ≠ .statFails) :
    ∃ ev, Walk (walkFn searchDir) walk = .returned none ev ∧
      pushed ev = (walk.filter Walked.isFile).map (fun w => Replace w.path searchDir [] 1) := by
  induction walk with
  | nil => exact ⟨[], rfl, rfl⟩
  | cons w ws ih =>
    obtain ⟨ev, hev, hp⟩ := ih (fun x hx => h x (List.mem_cons_of_mem _ hx))
    have hw := h w (List.mem_cons_self _ _)
    rcases w with ⟨path, probe⟩
    cases probe with
    | openFails =>
      exact ⟨Event.osOpen path :: ev, by simp [Walk, walkFn, hev],
        by simp [pushed, Walked.isFile, hp]⟩
    | statFails => exact absurd rfl hw
    | opened isDir =>
      cases isDir with
      | true =>
        exact ⟨Event.osOpen path :: ev, by simp [Walk, walkFn, hev],
          by simp [pushed, Walked.isFile, hp]⟩
      | false =>
        exact ⟨Event.osOpen path :: Event.send (Replace path searchDir [] 1) :: ev,
          by simp [Walk, walkFn, hev], by simp [pushed, Walked.isFile, hp]⟩

/-- A run of `get_file_list` in which no `Stat` fails: it returns, having
pushed the stripped paths of the files and then the termination signals. -/
theorem get_file_list_run (searchDir : GoString) (walk : List Walked) (N : Nat)
    (h : ∀ w ∈ walk, w.probe ≠ .statFails) :
    (get_file_list searchDir walk (N : Int)).exit = .returned ∧
    pushed (get_file_list searchDir walk (N : Int)).events =
      (walk.filter Walked.isFile).map (fun w => Replace w.path searchDir [] 1)
        ++ List.replicate N [] := by
  obtain ⟨ev, hev, hp⟩ := Walk_walkFn searchDir walk h
  simp [get_file_list, hev, pushed_append, pushed_sendSentinels, hp, pushed]

/-- C3: for a traversal whose entries are each unopenable, a directory or a
regular file, and any worker count `N`, `get_file_list` returns, and the
values it pushes are the stripped paths of the openable non-directory
entries in traversal order, followed by `N` empty strings and nothing
else. -/
theorem get_file_list_pushed (searchDir : GoString) (walk : List Walked) (N : Nat)
    (h : ∀ w ∈ walk, w.probe ≠ .statFails) :
    (get_file_list searchDir walk (N : Int)).exit = .returned ∧
    pushed (get_file_list searchDir walk (N : Int)).events =
      (walk.filter Walked.isFile).map (fun w => Replace w.path searchDir [] 1)
        ++ List.replicate N [] := by
  obtain ⟨ev, hev, hp⟩ := Walk_walkFn searchDir walk h
  constructor
  · simp only [get_file_list, hev]
  · simp only [get_file_list, hev, pushed_append, pushed_sendSentinels, hp,
      Int.toNat_ofNat]
    simp [pushed]

/-- Witness for C3: a walk over the root directory, a subdirectory, two
files and an unreadable entry, with two workers. -/
theorem get_file_list_pushed_witness :
    (∀ w ∈ [Walked.mk "files".toList (.opened true), ⟨"files/a".toList, .opened true⟩,
        ⟨"files/a/f1".toList, .opened false⟩, ⟨"files/a/locked".toList, .openFails⟩,
        ⟨"files/b".toList, .opened false⟩], w.probe ≠ .statFails) ∧
    pushed (get_file_list "files".toList
      [⟨"files".toList, .opened true⟩, ⟨"files/a".toList, .opened true⟩,
        ⟨"files/a/f1".toList, .opened false⟩, ⟨"files/a/locked".toList, .openFails⟩,
        ⟨"files/b".toList, .opened false⟩] ((2 : Nat) : Int)).events
      = ["/a/f1".toList, "/b".toList, [], []] :=
  ⟨by decide, by
    rw [(get_file_list_pushed "files".toList _ 2 (by decide)).2]
    decide⟩

/-- C2, the code at a source root that is a regular file: the walk visits
the root alone, its stripped path is the empty string, and with one worker
two empty strings are pushed, not one. -/
theorem get_file_list_root_file :
    pushed (get_file_list "files/pkg.hart".toList
      [⟨"files/pkg.hart".toList, .opened false⟩] 1).events = [[], []] ∧
    (pushed (get_file_list "files/pkg.hart".toList
      [⟨"files/pkg.hart".toList, .opened false⟩] 1).events).count [] = 2 := by
  decide

/-- The sentinel count when no walked file is the root itself: if every
openable non-directory entry has a path `searchDir ++ rest` with `rest`
non-empty and no `Stat` fails, exactly `N` of the pushed values are empty. -/
theorem get_file_list_sentinel_count (searchDir : GoString) (walk : List Walked) (N : Nat)
    (h : ∀ w ∈ walk, w.probe ≠ .statFails)
    (hroot : ∀ w ∈ walk, w.isFile = true → ∃ rest, rest ≠ [] ∧ w.path = searchDir ++ rest) :
    (pushed (get_file_list searchDir walk (N : Int)).events).count [] = N := by
  rw [(get_file_list_run searchDir walk N h).2, List.count_append]
  have h0 : ((walk.filter Walked.isFile).map
      (fun w => Replace w.path searchDir [] 1)).count [] = 0 := by
    rw [List.count_eq_zero]
    intro hmem
    obtain ⟨w, hw, he⟩ := List.mem_map.mp hmem
    obtain ⟨hw1, hw2⟩ := List.mem_filter.mp hw
    obtain ⟨rest, hne, hpath⟩ := hroot w hw1 hw2
    rw [hpath, Replace_root] at he
    exact hne he
  rw [h0]
  simp

/-- Witness for the sentinel count: a root directory with two files and two
workers. -/
theorem get_file_list_sentinel_count_witness :
    (pushed (get_file_list "files/".toList
      [⟨"files/".toList, .opened true⟩, ⟨"files/a".toList, .opened true⟩,
        ⟨"files/a/f1".toList, .opened false⟩, ⟨"files/f2".toList, .opened false⟩]
      ((2 : Nat) : Int)).events).count [] = 2 :=
  get_file_list_sentinel_count "files/".toList _ 2 (by decide) (by
    intro w hw hf
    simp only [List.mem_cons, List.mem_singleton, List.not_mem_nil, or_false] at hw
    rcases hw with rfl | rfl | rfl | rfl
    · exact absurd hf (by decide)
    · exact absurd hf (by decide)
    · exact ⟨"a/f1".toList, by decide, by decide⟩
    · exact ⟨"f2".toList, by decide, by decide⟩)

/-- C8, the default root: with the root written `files/` the walked path
`files/a/f1` is root + `a/f1`, the emitted task is `a/f1`, and it does not
begin with the separator. -/
theorem get_file_list_default_root_no_separator :
    pushed (get_file_list "files/".toList [⟨"files/a/f1".toList, .opened false⟩] 0).events
      = ["a/f1".toList] ∧
    "files/a/f1".toList = "files/".toList ++ "a/f1".toList ∧
    ¬ ("/".toList <+: "a/f1".toList) := by
  decide

/-- C8 as amended: for a walked file path `root ++ rest` with `rest`
non-empty, the one task `get_file_list` emits for it is `rest`, which is not
the empty termination signal, the source root followed by the task is the
walked path again, and the task begins with the separator exactly when
`rest` does. -/
theorem get_file_list_strips_root (root rest : GoString) (N : Nat) (h : rest ≠ []) :
    pushed (get_file_list root [⟨root ++ rest, .opened false⟩] (N : Int)).events
      = rest :: List.replicate N [] ∧
    Replace (root ++ rest) root [] 1 = rest ∧
    Replace (root ++ rest) root [] 1 ≠ [] ∧
    root ++ Replace (root ++ rest) root [] 1 = root ++ rest ∧
    ("/".toList <+: Replace (root ++ rest) root [] 1 ↔ "/".toList <+: rest) := by
  have hr := Replace_root root rest
  refine ⟨?_, hr, by rw [hr]; exact h, by rw [hr], by rw [hr]⟩
  rw [(get_file_list_run root _ N (by simp)).2]
  simp [Walked.isFile, hr]

/-- Witness for C8 as amended: the root `files` without a trailing separator
and the walked path `files/a/f1`. -/
theorem get_file_list_strips_root_witness :
    "/a/f1".toList ≠ [] ∧
    pushed (get_file_list "files".toList
      [⟨"files".toList ++ "/a/f1".toList, .opened false⟩] ((1 : Nat) : Int)).events
      = "/a/f1".toList :: List.replicate 1 [] ∧
    "/".toList <+: "/a/f1".toList :=
  ⟨by decide, (get_file_list_strips_root "files".toList "/a/f1".toList 1 (by decide)).1,
    by decide⟩

/-! ## `upload` -/

/-- The events of `upload` up to and including the call of `os.Open`. -/
theorem upload_after_decode {F S : Type} (sys : Sys F S) (worker : Worker) (file : GoString)
    (fs : F) (store : S) (res : GoString) (info : PkgInfo) (last : GoString)
    (hinspect : sys.habPkgInfo fs (worker.SourceDir ++ file) = .ok res)
    (hdecode : sys.jsonUnmarshal res = .ok info)
    (hlast : (Split file "/".toList).getLast? = some last) :
    worker.upload sys file fs store =
      match sys.osOpen fs (worker.SourceDir ++ file) with
      | .error err =>
        ⟨.returned "Couldn't open file".toList (some err), store,
          [Event.exec (worker.SourceDir ++ file),
            worker.println ("uploading to ".toList ++ sprintfKey info.Origin info.Name
              info.Version info.Release (if Contains file "windows".toList then
                "windows".toList else "linux".toList) last),
            Event.osOpen (worker.SourceDir ++ file)]⟩
      | .ok f =>
        match f.stat with
        | none =>
          ⟨.panicked "nil pointer dereference".toList, store,
            [Event.exec (worker.SourceDir ++ file),
              worker.println ("uploading to ".toList ++ sprintfKey info.Origin info.Name
                info.Version info.Release (if Contains file "windows".toList then
                  "windows".toList else "linux".toList) last),
              Event.osOpen (worker.SourceDir ++ file)]⟩
        | some size =>
          ⟨match (sys.putObject store ⟨worker.Bucket, sprintfKey info.Origin info.Name
                info.Version info.Release (if Contains file "windows".toList then
                  "windows".toList else "linux".toList) last,
                readBuffer size f.content, worker.Acl⟩).2 with
            | .error err => .returned [] (some err)
            | .ok resp => .returned resp none,
            (sys.putObject store ⟨worker.Bucket, sprintfKey info.Origin info.Name
                info.Version info.Release (if Contains file "windows".toList then
                  "windows".toList else "linux".toList) last,
                readBuffer size f.content, worker.Acl⟩).1,
            [Event.exec (worker.SourceDir ++ file),
              worker.println ("uploading to ".toList ++ sprintfKey info.Origin info.Name
                info.Version info.Release (if Contains file "windows".toList then
                  "windows".toList else "linux".toList) last),
              Event.osOpen (worker.SourceDir ++ file),
              Event.putObject ⟨worker.Bucket, sprintfKey info.Origin info.Name
                info.Version info.Release (if Contains file "windows".toList then
                  "windows".toList else "linux".toList) last,
                readBuffer size f.content, worker.Acl⟩]⟩ := by
  unfold Worker.upload
  simp only [hinspect, hdecode, hlast]
  cases sys.osOpen fs (worker.SourceDir ++ file) with
  | error err => rfl
  | ok f =>
    simp only
    cases f.stat with
    | none => rfl
    | some size =>
      simp only
      rcases sys.putObject store _ with ⟨store2, r⟩
      cases r <;> rfl

theorem platform_of_substring (file : GoString) :
    (if Contains file "windows".toList = true then "windows".toList else "linux".toList) =
      (if "windows".toList <:+: file then "windows".toList else "linux".toList) := by
  simp only [Contains_iff_substring]

/-- C1: when inspection of the file yields metadata `info`, and `b` is the
text of `file` after its last slash (all of `file` when it has none), every
key `upload` passes to `PutObject` is `/origin/name/version/release/x86_64/`
followed by the platform, a slash and `b`, where the platform is `windows`
if `file` contains `windows` anywhere and `linux` otherwise; and `PutObject`
is called with that key whenever the file opens and its `Stat` succeeds. -/
theorem upload_put_key {F S : Type} (sys : Sys F S) (worker : Worker) (file : GoString)
    (fs : F) (store : S) (res : GoString) (info : PkgInfo) (b : GoString)
    (hinspect : sys.habPkgInfo fs (worker.SourceDir ++ file) = .ok res)
    (hdecode : sys.jsonUnmarshal res = .ok info)
    (hb : '/' ∉ b) (hfile : file = b ∨ ∃ d, file = d ++ '/' :: b) :
    (∀ params, Event.putObject params ∈ (worker.upload sys file fs store).events →
      params.Key = "/".toList ++ info.Origin ++ "/".toList ++ info.Name ++ "/".toList
        ++ info.Version ++ "/".toList ++ info.Release ++ "/x86_64/".toList
        ++ (if "windows".toList <:+: file then "windows".toList else "linux".toList)
        ++ "/".toList ++ b) ∧
    (∀ f size, sys.osOpen fs (worker.SourceDir ++ file) = .ok f → f.stat = some size →
      Event.putObject
        { Bucket := worker.Bucket,
          Key := "/".toList ++ info.Origin ++ "/".toList ++ info.Name ++ "/".toList
            ++ info.Version ++ "/".toList ++ info.Release ++ "/x86_64/".toList
            ++ (if "windows".toList <:+: file then "windows".toList else "linux".toList)
            ++ "/".toList ++ b,
          Body := readBuffer size f.content, ACL := worker.Acl }
        ∈ (worker.upload sys file fs store).events) := by
  have hlast := Split_slash_getLast file b hb hfile
  rw [upload_after_decode sys worker file fs store res info b hinspect hdecode hlast]
  constructor
  · intro params hmem
    cases hopen : sys.osOpen fs (worker.SourceDir ++ file) with
    | error err =>
      rw [hopen] at hmem
      simp [Worker.println] at hmem
    | ok f =>
      rw [hopen] at hmem
      cases hstat : f.stat with
      | none =>
        simp only [hstat] at hmem
        simp [Worker.println] at hmem
      | some size =>
        simp only [hstat] at hmem
        simp only [List.mem_cons, List.mem_singleton, List.not_mem_nil, Worker.println,
          reduceCtorEq, false_or, or_false, Event.putObject.injEq] at hmem
        rw [hmem]
        show sprintfKey _ _ _ _ _ _ = _
        unfold sprintfKey
        rw [platform_of_substring]
  · intro f size hopen hstat
    rw [hopen]
    simp only [hstat]
    rw [← platform_of_substring]
    simp [sprintfKey]

/-- Witness for C1: metadata core, pkg, 1.2.0, 20230101000000 and the path
`/linux/pkg-1.2.0.tar` give the key
`/core/pkg/1.2.0/20230101000000/x86_64/linux/pkg-1.2.0.tar`. -/
theorem upload_put_key_witness :
    Event.putObject
      { Bucket := "my-s3-bucket".toList,
        Key := "/core/pkg/1.2.0/20230101000000/x86_64/linux/pkg-1.2.0.tar".toList,
        Body := "abc".toList, ACL := "private".toList }
      ∈ (Worker.upload (demoSys {}) { demoWorker with SourceDir := "files".toList }
          "/linux/pkg-1.2.0.tar".toList ["files/linux/pkg-1.2.0.tar".toList] []).events :=
  (upload_put_key (demoSys {}) { demoWorker with SourceDir := "files".toList }
    "/linux/pkg-1.2.0.tar".toList
    ["files/linux/pkg-1.2.0.tar".toList] [] demoJSON demoInfo "pkg-1.2.0.tar".toList
    rfl rfl (by decide) (Or.inr ⟨"/linux".toList, by decide⟩)).2
    { stat := some 3, content := "abc".toList } 3 rfl rfl

/-- The channel and inspection events of any call of `upload`: it runs the
`hab` command once, on the source path of the file, and neither sends nor
receives. -/
theorem upload_events {F S : Type} (sys : Sys F S) (worker : Worker) (file : GoString)
    (fs : F) (store : S) :
    inspected (worker.upload sys file fs store).events = [worker.SourceDir ++ file] ∧
    received (worker.upload sys file fs store).events = [] ∧
    pushed (worker.upload sys file fs store).events = [] := by
  unfold Worker.upload
  cases sys.habPkgInfo fs (worker.SourceDir ++ file) with
  | error err => simp [inspected, received, pushed]
  | ok res =>
    simp only
    cases sys.jsonUnmarshal res with
    | error err => simp [inspected, received, pushed]
    | ok info =>
      simp only
      cases (Split file "/".toList).getLast? with
      | none => simp [inspected, received, pushed]
      | some last =>
        simp only
        cases sys.osOpen fs (worker.SourceDir ++ file) with
        | error err => simp [inspected, received, pushed, Worker.println]
        | ok f =>
          simp only
          cases f.stat with
          | none => simp [inspected, received, pushed, Worker.println]
          | some size =>
            simp only
            rcases sys.putObject store _ with ⟨store2, r⟩
            cases r <;> simp [inspected, received, pushed, Worker.println]

/-! ## `doUploads` -/

/-- The channel and inspection events of one pass through the loop body: one
call of `upload`, no send, no receive. -/
theorem loopBody_events {F S : Type} (sys : Sys F S) (worker : Worker) (file : GoString)
    (fs : F) (store : S) :
    inspected (worker.loopBody sys file fs store).events = [worker.SourceDir ++ file] ∧
    received (worker.loopBody sys file fs store).events = [] ∧
    pushed (worker.loopBody sys file fs store).events = [] := by
  obtain ⟨h1, h2, h3⟩ := upload_events sys worker file fs store
  unfold Worker.loopBody
  simp only
  cases (worker.upload sys file fs store).result with
  | panicked e =>
    simp [inspected_append, received_append, pushed_append, h1, h2, h3, Worker.println,
      inspected, received, pushed]
  | returned response err =>
    cases err with
    | none =>
      simp [inspected_append, received_append, pushed_append, h1, h2, h3, Worker.println,
        inspected, received, pushed]
    | some e =>
      simp [inspected_append, received_append, pushed_append, h1, h2, h3, Worker.println,
        inspected, received, pushed]

/-- The loop of `doUploads`, when no call of `upload` panics: one call of
`upload` per value before the first empty string, in order, and no receive
after the first empty string. -/
theorem loop_trace {F S : Type} (sys : Sys F S) (worker : Worker) :
    ∀ (incoming : List GoString) (fs : F) (store : S),
      (worker.loop sys incoming fs store).exit ≠ .panicked →
      inspected (worker.loop sys incoming fs store).events
        = (incoming.takeWhile (fun v => decide (v ≠ []))).map (worker.SourceDir ++ ·) ∧
      received (worker.loop sys incoming fs store).events
        = incoming.take ((incoming.takeWhile (fun v => decide (v ≠ []))).length + 1) ∧
      (worker.loop sys incoming fs store).unread
        = incoming.drop ((incoming.takeWhile (fun v => decide (v ≠ []))).length + 1) ∧
      pushed (worker.loop sys incoming fs store).events = [] := by
  intro incoming
  induction incoming with
  | nil => intro fs store _; simp [Worker.loop, inspected, received, pushed]
  | cons file rest ih =>
    intro fs store h
    by_cases hf : file = []
    · subst hf
      simp [Worker.loop, inspected, received, pushed]
    · obtain ⟨h1, h2, h3⟩ := loopBody_events sys worker file fs store
      unfold Worker.loop at h ⊢
      simp only [hf, if_false] at h ⊢
      cases hexit : (worker.loopBody sys file fs store).exit with
      | panicked => simp [hexit] at h
      | returned =>
        simp only [hexit] at h ⊢
        obtain ⟨i1, i2, i3, i4⟩ := ih _ _ h
        simp [hf, inspected, received, pushed, inspected_append, received_append,
          pushed_append, h1, h2, h3, i1, i2, i3, i4]

/-- C4: in a run of `doUploads` in which every call of `upload` returns, the
worker calls `upload` exactly once, in order, for each value that precedes
the first empty string, whatever the call returned; it receives those values
and the first empty string and nothing after it; what follows stays unread;
and the worker never sends a value into the channel. -/
theorem doUploads_one_upload_per_task {F S : Type} (sys : Sys F S) (worker : Worker)
    (incoming : List GoString) (fs : F) (store : S)
    (h : (worker.doUploads sys incoming fs store).exit ≠ .panicked) :
    inspected (worker.doUploads sys incoming fs store).events
      = (incoming.takeWhile (fun v => decide (v ≠ []))).map (worker.SourceDir ++ ·) ∧
    received (worker.doUploads sys incoming fs store).events
      = incoming.take ((incoming.takeWhile (fun v => decide (v ≠ []))).length + 1) ∧
    (worker.doUploads sys incoming fs store).unread
      = incoming.drop ((incoming.takeWhile (fun v => decide (v ≠ []))).length + 1) ∧
    pushed (worker.doUploads sys incoming fs store).events = [] := by
  have hl : (worker.loop sys incoming fs store).exit ≠ .panicked := by
    intro hp
    apply h
    unfold Worker.doUploads
    simp only [hp]
  obtain ⟨i1, i2, i3, i4⟩ := loop_trace sys worker incoming fs store hl
  unfold Worker.doUploads
  simp only
  cases hexit : (worker.loop sys incoming fs store).exit with
  | panicked => exact absurd hexit hl
  | finished =>
    simp [inspected, received, pushed, inspected_append, received_append, pushed_append,
      Worker.println, i1, i2, i3, i4]
  | blocked =>
    simp [inspected, received, pushed, inspected_append, received_append, pushed_append,
      Worker.println, i1, i2, i3, i4]

/-- Witness for C4: a worker handed a file that uploads, a file the store
rejects, a file that does not open, the termination signal and one more
value calls `upload` for the first three and leaves the last unread. -/
theorem doUploads_one_upload_per_task_witness :
    (demoWorker.doUploads (demoSys demoFaults) demoIncoming demoFiles []).exit ≠ .panicked ∧
    inspected (demoWorker.doUploads (demoSys demoFaults) demoIncoming demoFiles []).events
      = ["files/a/ok".toList, "files/a/rejected".toList, "files/a/gone".toList] ∧
    received (demoWorker.doUploads (demoSys demoFaults) demoIncoming demoFiles []).events
      = ["a/ok".toList, "a/rejected".toList, "a/gone".toList, []] ∧
    (demoWorker.doUploads (demoSys demoFaults) demoIncoming demoFiles []).unread
      = ["a/late".toList] ∧
    (demoWorker.doUploads (demoSys demoFaults) demoIncoming demoFiles []).fs
      = ["files-uploaded/a/ok".toList, "files/a/rejected".toList] :=
  ⟨by decide,
    (doUploads_one_upload_per_task (demoSys demoFaults) demoWorker demoIncoming demoFiles []
      (by decide)).1.trans (by decide),
    (doUploads_one_upload_per_task (demoSys demoFaults) demoWorker demoIncoming demoFiles []
      (by decide)).2.1.trans (by decide),
    (doUploads_one_upload_per_task (demoSys demoFaults) demoWorker demoIncoming demoFiles []
      (by decide)).2.2.1.trans (by decide),
    by decide⟩

/-- No call of `upload` creates a directory or renames a file. -/
theorem upload_no_relocation {F S : Type} (sys : Sys F S) (worker : Worker)
    (file : GoString) (fs : F) (store : S) :
    ∀ e ∈ (worker.upload sys file fs store).events, e.isRelocation = false := by
  intro e he
  unfold Worker.upload at he
  cases h1 : sys.habPkgInfo fs (worker.SourceDir ++ file) with
  | error err => simp only [h1] at he; simp at he; simp [he, Event.isRelocation]
  | ok res =>
    simp only [h1] at he
    cases h2 : sys.jsonUnmarshal res with
    | error err => simp only [h2] at he; simp at he; simp [he, Event.isRelocation]
    | ok info =>
      simp only [h2] at he
      cases h3 : (Split file "/".toList).getLast? with
      | none => simp only [h3] at he; simp at he; simp [he, Event.isRelocation]
      | some last =>
        simp only [h3] at he
        cases h4 : sys.osOpen fs (worker.SourceDir ++ file) with
        | error err =>
          simp only [h4] at he
          simp [Worker.println] at he
          rcases he with rfl | rfl | rfl <;> rfl
        | ok f =>
          simp only [h4] at he
          cases h5 : f.stat with
          | none =>
            simp only [h5] at he
            simp [Worker.println] at he
            rcases he with rfl | rfl | rfl <;> rfl
          | some size =>
            simp only [h5] at he
            rcases h6 : sys.putObject store _ with ⟨store2, r⟩
            rw [h6] at he
            cases r <;>
            · simp [Worker.println] at he
              rcases he with rfl | rfl | rfl | rfl <;> rfl

/-- C5: when `upload` returns an error for a task (the Put failed, or the
source file did not open), the loop body creates no directory and renames
nothing, the filesystem after the iteration is the filesystem before it, so
the file opens at the source path exactly as before, and the loop goes on to
receive its next value. -/
theorem loopBody_upload_error_keeps_files {F S : Type} (sys : Sys F S) (worker : Worker)
    (file : GoString) (fs : F) (store : S) (response : GoString) (err : GoError)
    (h : (worker.upload sys file fs store).result = .returned response (some err)) :
    (worker.loopBody sys file fs store).fs = fs ∧
    (∀ e ∈ (worker.loopBody sys file fs store).events, e.isRelocation = false) ∧
    sys.osOpen (worker.loopBody sys file fs store).fs (worker.SourceDir ++ file)
      = sys.osOpen fs (worker.SourceDir ++ file) ∧
    (worker.loopBody sys file fs store).exit = .returned ∧
    (file ≠ [] → ∀ rest : List GoString,
      (worker.loop sys (file :: rest) fs store).events
        = Event.recv file :: (worker.loopBody sys file fs store).events
          ++ (worker.loop sys rest fs (worker.loopBody sys file fs store).store).events ∧
      (worker.loop sys (file :: rest) fs store).exit
        = (worker.loop sys rest fs (worker.loopBody sys file fs store).store).exit) := by
  have hfs : (worker.loopBody sys file fs store).fs = fs := by
    unfold Worker.loopBody; simp only [h]
  have hexit : (worker.loopBody sys file fs store).exit = .returned := by
    unfold Worker.loopBody; simp only [h]
  refine ⟨hfs, ?_, by rw [hfs], hexit, ?_⟩
  · intro e he
    have hup := upload_no_relocation sys worker file fs store
    unfold Worker.loopBody at he
    simp only [h] at he
    simp only [List.mem_append, List.mem_cons, List.mem_singleton, List.not_mem_nil,
      or_false] at he
    rcases he with (rfl | he) | rfl
    · rfl
    · exact hup e he
    · rfl
  · intro hne rest
    simp only [Worker.loop, hne, if_false, hexit, hfs]
    exact ⟨trivial, trivial⟩

/-- Witness for C5: the store rejects the key of `a/rejected`; the
filesystem is unchanged by the iteration. -/
theorem loopBody_upload_error_keeps_files_witness :
    (demoWorker.upload (demoSys demoFaults) "a/rejected".toList demoFiles []).result
      = .returned [] (some "AccessDenied".toList) ∧
    (demoWorker.loopBody (demoSys demoFaults) "a/rejected".toList demoFiles []).fs
      = demoFiles :=
  ⟨by decide,
    (loopBody_upload_error_keeps_files (demoSys demoFaults) demoWorker "a/rejected".toList
      demoFiles [] [] "AccessDenied".toList (by decide)).1⟩

/-- C6, the code at the task `a/f1x/f1`, which is `a/f1x` + `/` + `f1`: after
a successful Put the worker creates `files-uploaded/ax/f1`, not the parent
`files-uploaded/a/f1x` of the rename target, because the first occurrence of
`/f1` in the task is removed, not the last. -/
theorem loopBody_mkdir_first_occurrence :
    "a/f1x/f1".toList = "a/f1x".toList ++ "/".toList ++ "f1".toList ∧
    (demoWorker.upload (demoSys {}) "a/f1x/f1".toList ["files/a/f1x/f1".toList] []).result
      = .returned "ETag".toList none ∧
    (demoWorker.loopBody (demoSys {}) "a/f1x/f1".toList
        ["files/a/f1x/f1".toList] []).events.filter Event.isRelocation
      = [Event.mkdirAll "files-uploaded/ax/f1".toList,
          Event.rename "files/a/f1x/f1".toList "files-uploaded/a/f1x/f1".toList] ∧
    "files-uploaded/ax/f1".toList ≠ demoWorker.DestDir ++ "a/f1x".toList := by
  decide

/-- C7, a rename that fails after a successful Put: the console lines of the
iteration are those of the iteration whose rename succeeds, and the file
stays at its source path. -/
theorem loopBody_rename_failure_silent :
    (demoWorker.upload (demoSys { noRename := ["files/a/ok".toList] }) "a/ok".toList
      demoFiles []).result = .returned "ETag".toList none ∧
    ((demoSys { noRename := ["files/a/ok".toList] }).rename demoFiles "files/a/ok".toList
      "files-uploaded/a/ok".toList).2 = some "rename failed".toList ∧
    ((demoSys {}).rename demoFiles "files/a/ok".toList "files-uploaded/a/ok".toList).2
      = none ∧
    console (demoWorker.loopBody (demoSys { noRename := ["files/a/ok".toList] })
      "a/ok".toList demoFiles []).events
      = console (demoWorker.loopBody (demoSys {}) "a/ok".toList demoFiles []).events ∧
    (demoWorker.loopBody (demoSys { noRename := ["files/a/ok".toList] })
      "a/ok".toList demoFiles []).fs = demoFiles := by
  decide

/-- C7 as amended: the worker ignores the results of directory creation and
rename; the console lines of an iteration are the same whatever `MkdirAll`
and `Rename` do, and after a successful Put they are the `File to upload`
line, the `uploading to` line and the response, with no line for the move. -/
theorem loopBody_console_ignores_move {F S : Type} (sys : Sys F S)
    (mk : F → GoString → F × Option GoError)
    (rn : F → GoString → GoString → F × Option GoError)
    (worker : Worker) (file : GoString) (fs : F) (store : S) :
    console (worker.loopBody { sys with mkdirAll := mk, rename := rn } file fs store).events
      = console (worker.loopBody sys file fs store).events ∧
    (∀ response, (worker.upload sys file fs store).result = .returned response none →
      console (worker.loopBody { sys with mkdirAll := mk, rename := rn } file fs store).events
        = console [worker.println ("File to upload: ".toList ++ file)]
          ++ console (worker.upload sys file fs store).events
          ++ console [worker.println response]) := by
  have hup : worker.upload { sys with mkdirAll := mk, rename := rn } file fs store
      = worker.upload sys file fs store := rfl
  constructor
  · unfold Worker.loopBody
    simp only [hup]
    cases (worker.upload sys file fs store).result with
    | panicked e => rfl
    | returned response err =>
      cases err with
      | none => simp [console_append, console, Worker.println]
      | some e => rfl
  · intro response h
    unfold Worker.loopBody
    simp only [hup, h]
    simp [console_append, console, Worker.println]

/-- C9, the code at a file that opens but whose `Stat` fails: inspection
and decoding succeed, and `upload` panics on the nil `FileInfo`, taking the
worker down with it. -/
theorem upload_stat_failure_panics :
    (demoSys { noStat := ["files/a/ok".toList] }).habPkgInfo demoFiles
      (demoWorker.SourceDir ++ "a/ok".toList) = .ok demoJSON ∧
    (demoSys { noStat := ["files/a/ok".toList] }).jsonUnmarshal demoJSON = .ok demoInfo ∧
    (demoWorker.upload (demoSys { noStat := ["files/a/ok".toList] }) "a/ok".toList
      demoFiles []).result = .panicked "nil pointer dereference".toList ∧
    (demoWorker.doUploads (demoSys { noStat := ["files/a/ok".toList] })
      ["a/ok".toList, []] demoFiles []).exit = .panicked :=
  ⟨rfl, rfl, by decide, by decide⟩

/-- Inspect failure is fatal: when the `hab` command fails, or its output
does not decode, `upload` panics having done nothing but run the command
(the file is not opened, nothing is put, no directory is created, nothing is
renamed), and the worker's loop ends in that panic. -/
theorem upload_inspect_failure_fatal {F S : Type} (sys : Sys F S) (worker : Worker)
    (file : GoString) (fs : F) (store : S)
    (h : (∃ err, sys.habPkgInfo fs (worker.SourceDir ++ file) = .error err) ∨
      (∃ res err, sys.habPkgInfo fs (worker.SourceDir ++ file) = .ok res ∧
        sys.jsonUnmarshal res = .error err)) :
    (∃ err, (worker.upload sys file fs store).result = .panicked err) ∧
    (worker.upload sys file fs store).events = [Event.exec (worker.SourceDir ++ file)] ∧
    (worker.loopBody sys file fs store).exit = .panicked ∧
    (∀ e ∈ (worker.loopBody sys file fs store).events, e.isFileAction = false) ∧
    (worker.loopBody sys file fs store).fs = fs ∧
    (worker.loopBody sys file fs store).store = store := by
  have hup : ∃ err, worker.upload sys file fs store
      = ⟨.panicked err, store, [Event.exec (worker.SourceDir ++ file)]⟩ := by
    unfold Worker.upload
    rcases h with ⟨err, h1⟩ | ⟨res, err, h1, h2⟩
    · exact ⟨err, by simp only [h1]⟩
    · exact ⟨err, by simp only [h1, h2]⟩
  obtain ⟨err, hup⟩ := hup
  refine ⟨⟨err, by rw [hup]⟩, by rw [hup], ?_, ?_, ?_, ?_⟩
  · unfold Worker.loopBody; simp only [hup]
  · intro e he
    unfold Worker.loopBody at he
    simp only [hup] at he
    simp [Worker.println] at he
    rcases he with rfl | rfl <;> rfl
  · unfold Worker.loopBody; simp only [hup]
  · unfold Worker.loopBody; simp only [hup]

/-- Witness for the fatal inspect failure: the `hab` command fails on
`files/a/ok`. -/
theorem upload_inspect_failure_fatal_witness :
    (demoWorker.upload (demoSys { inspect := ["files/a/ok".toList] }) "a/ok".toList
      demoFiles []).events = [Event.exec "files/a/ok".toList] ∧
    (demoWorker.loopBody (demoSys { inspect := ["files/a/ok".toList] }) "a/ok".toList
      demoFiles []).exit = .panicked :=
  ⟨(upload_inspect_failure_fatal (demoSys { inspect := ["files/a/ok".toList] }) demoWorker
      "a/ok".toList demoFiles [] (Or.inl ⟨"exit status 1".toList, rfl⟩)).2.1,
    (upload_inspect_failure_fatal (demoSys { inspect := ["files/a/ok".toList] }) demoWorker
      "a/ok".toList demoFiles [] (Or.inl ⟨"exit status 1".toList, rfl⟩)).2.2.1⟩

/-! ## The pipeline -/

theorem not_inevitable_of_avoidable {σ : Type} (next : σ → List σ) (P : σ → Bool) :
    ∀ (n : Nat) (s : σ), avoidable next P n s = true → ¬ Inevitable next P s := by
  intro n
  induction n with
  | zero => intro s h; simp [avoidable] at h
  | succ n ih =>
    intro s h hin
    simp only [avoidable, Bool.and_eq_true, Bool.not_eq_true', Bool.or_eq_true,
      List.isEmpty_iff, List.any_eq_true] at h
    obtain ⟨hP, hrest⟩ := h
    cases hin with
    | now hp => rw [hP] at hp; exact Bool.false_ne_true hp
    | later hne hall =>
      rcases hrest with he | ⟨t, ht, hav⟩
      · exact hne he
      · exact ih t hav (hall t ht)

/-- The pipeline at a source root that is a regular file: with one worker,
the worker takes the empty task for a termination signal and returns, and
`get_file_list` waits for ever to send the real signal; `wg.Wait()` never
returns. -/
theorem pipeline_root_file_deadlock :
    ¬ Inevitable (Pipeline.next (demoSys {})) Pipeline.finished
      (Pipeline.init { demoWorker with SourceDir := "files/pkg.hart".toList }
        [⟨"files/pkg.hart".toList, .opened false⟩] 1
        ["files/pkg.hart".toList] ([] : DemoStore)) :=
  not_inevitable_of_avoidable _ _ 3 _ (by decide)

/-! ## Relocation when the file name occurs once -/

theorem cutFirst_last_occurrence (old : GoString) (hold : old ≠ []) :
    ∀ dir : GoString, (∀ a t, dir ++ old = a ++ old ++ t → t = []) →
      cutFirst old (dir ++ old) = some (dir, []) := by
  intro dir
  induction dir with
  | nil =>
    intro _
    have := cutFirst_append_self old [] hold
    simpa using this
  | cons x xs ih =>
    intro h
    have hnp : ¬ (old.isPrefixOf (x :: (xs ++ old)) = true) := by
      intro hp
      obtain ⟨t, ht⟩ := List.isPrefixOf_iff_prefix.mp hp
      have ht0 := h [] t (by simpa using ht.symm)
      subst ht0
      have hl := congrArg List.length ht
      simp at hl
      omega
    have ih2 := ih (fun a t e => h (x :: a) t (by simp [e]))
    show cutFirst old (x :: (xs ++ old)) = _
    unfold cutFirst
    rw [if_neg hnp, ih2]
    rfl

theorem lastElement_append (dir base : GoString) (hslash : '/' ∉ base) :
    lastElement (dir ++ '/' :: base) = base := by
  induction dir with
  | nil => simp [lastElement, hslash]
  | cons x xs ih =>
    show lastElement (x :: (xs ++ '/' :: base)) = base
    unfold lastElement
    rw [if_pos (by simp), ih]

theorem stripTrailingSlashes_of_base (dir base : GoString) (hbase : base ≠ [])
    (hslash : '/' ∉ base) :
    stripTrailingSlashes (dir ++ '/' :: base) = dir ++ '/' :: base := by
  obtain ⟨r, c, hrc⟩ : ∃ r c, base = r ++ [c] := by
    rcases List.eq_nil_or_concat base with h | ⟨r, c, h⟩
    · exact absurd h hbase
    · exact ⟨r, c, by simpa using h⟩
  have hc : c ≠ '/' := by
    intro e; apply hslash; rw [hrc, e]; simp
  subst hrc
  simp [stripTrailingSlashes, List.dropWhile, hc]

theorem Base_of_task (dir base : GoString) (hbase : base ≠ []) (hslash : '/' ∉ base) :
    Base (dir ++ '/' :: base) = base := by
  unfold Base
  rw [if_neg (by simp), stripTrailingSlashes_of_base dir base hbase hslash,
    lastElement_append dir base hslash]
  simp [hbase]

theorem Replace_last_occurrence (dir base : GoString)
    (hfirst : ∀ a t, dir ++ '/' :: base = a ++ '/' :: base ++ t → t = []) :
    Replace (dir ++ '/' :: base) ("/".toList ++ base) [] 1 = dir := by
  have hcut := cutFirst_last_occurrence ('/' :: base) (by simp) dir hfirst
  have hne : ¬ ("/".toList ++ base = [] ∨ (1 : Int) = 0) := by simp
  unfold Replace
  rw [if_neg hne]
  simp only [show "/".toList ++ base = '/' :: base from rfl]
  simp [replaceFirst, hcut]

/-- Relocation when the file name occurs once: for a task `dir + "/" + base`
with `base` non-empty and free of slashes, in which `"/" + base` occurs
nowhere but at the end, after a successful Put the worker creates
`DestDir + dir` and renames `SourceDir + task` to `DestDir + task`, and
relocates nothing else. -/
theorem loopBody_relocates {F S : Type} (sys : Sys F S) (worker : Worker)
    (dir base : GoString) (fs : F) (store : S) (response : GoString)
    (hbase : base ≠ []) (hslash : '/' ∉ base)
    (hfirst : ∀ a t, dir ++ '/' :: base = a ++ '/' :: base ++ t → t = [])
    (hput : (worker.upload sys (dir ++ '/' :: base) fs store).result
      = .returned response none) :
    (worker.loopBody sys (dir ++ '/' :: base) fs store).events.filter Event.isRelocation
      = [Event.mkdirAll (worker.DestDir ++ dir),
          Event.rename (worker.SourceDir ++ (dir ++ '/' :: base))
            (worker.DestDir ++ (dir ++ '/' :: base))] := by
  have hup : (worker.upload sys (dir ++ '/' :: base) fs store).events.filter
      Event.isRelocation = [] := by
    rw [List.filter_eq_nil_iff]
    intro e he
    rw [upload_no_relocation sys worker _ fs store e he]
    simp
  unfold Worker.loopBody
  simp only [hput, Base_of_task dir base hbase hslash,
    Replace_last_occurrence dir base hfirst, List.filter_append, hup]
  simp [Worker.println, Event.isRelocation]

/-- Witness for the relocation: the task `a/f1` of the scenario creates
`files-uploaded/a` and moves `files/a/f1` to `files-uploaded/a/f1`. -/
theorem loopBody_relocates_witness :
    (demoWorker.loopBody (demoSys {}) "a/f1".toList demoTree []).events.filter
        Event.isRelocation
      = [Event.mkdirAll "files-uploaded/a".toList,
          Event.rename "files/a/f1".toList "files-uploaded/a/f1".toList] :=
  loopBody_relocates (demoSys {}) demoWorker "a".toList "f1".toList demoTree []
    "ETag".toList (by decide) (by decide)
    (by
      intro a t h
      have hl := congrArg List.length h
      cases a with
      | nil => simp at h
      | cons x a2 =>
        cases a2 with
        | nil => simp at h; exact h.2
        | cons y a3 => simp at hl; omega)
    (by decide)

end S3Bulk
